import Mathlib

/-!
Verification of the BIRL core of the scalable-irl repository.

The development shallowly embeds the two source modules,
`sirl/algorithms/birl/base.py` (reward priors, the PolicyWalk MCMC
proposal, and the GTBIRL estimator loop with its trajectory-quality
evaluators) and `sirl/domains/navigation/reward_functions.py`
(the SimpleBehaviors / FlowBehaviors reward functions).

Modelling conventions:
- numpy floating-point values are modelled as rationals (ℚ); the claims
  proved here are algebraic identities that hold in any ordered field.
- transcendental library functions (`np.exp`, `np.log`, `np.hypot`,
  `np.sqrt`) and the geometry utilities of `sirl.utils.geometry`
  (external collaborators per the spec) are abstract function
  parameters, constrained only by the hypotheses each theorem needs
  (e.g. positivity of `exp`).
- the graph / MDP representation (`sirl.models`, `sirl.algorithms.mdp_solvers`)
  is external to the two source files: it is modelled as an abstract
  interface with exactly the accessors the core calls.
- Python `assert` failures and `IndexError` are modelled with `Option`.
-/

namespace SIRL

/-- Model of `np.dot` on two 1-D arrays: the sum of pairwise products. -/
def npDot (a b : List ℚ) : ℚ :=
  (List.zipWith (fun x y => x * y) a b).sum

/-- Abstract interface to the externally owned graph representation, with
exactly the accessors `_expert_trajectory_quality` and
`_generated_trajectory_quality` call: `G.out_edges(n)`, `G.gna(n, 'pi')`,
`G.gea(u, v, 'phi')` and `G.gea(u, v, 'duration')`.  Durations are modelled
as naturals so that `gamma ** time` is an ordinary monoid power. -/
structure MDPGraph where
  out_edges : Nat → List (Nat × Nat)
  gnaPi : Nat → Nat
  geaPhi : Nat → Nat → List ℚ
  geaDuration : Nat → Nat → Nat

/-- One loop iteration of the quality accumulation in
`GTBIRL._expert_trajectory_quality` (and identically in
`_generated_trajectory_quality`): the accumulator holds `(QE, time)`.
A node with outgoing edges contributes `gamma ** time * (reward · phi)` for
the edge selected by the node's `pi` annotation and advances `time` by that
edge's duration; a node with no outgoing edges contributes
`gamma ** time * 100` (the hard-coded terminal bonus `gr`) and leaves
`time` unchanged. -/
def trajQualityStep (G : MDPGraph) (gamma : ℚ) (reward : List ℚ)
    (acc : ℚ × Nat) (n : Nat) : ℚ × Nat :=
  let actions := G.out_edges n
  if actions.isEmpty then
    (acc.1 + gamma ^ acc.2 * 100, acc.2)
  else
    let e := actions.getD (G.gnaPi n) (0, 0)
    let r := npDot reward (G.geaPhi e.1 e.2)
    (acc.1 + gamma ^ acc.2 * r, acc.2 + G.geaDuration e.1 e.2)

/-- The per-trajectory quality loop of `GTBIRL._expert_trajectory_quality`,
starting from `QE = 0`, `time = 0`. -/
def trajQuality (G : MDPGraph) (gamma : ℚ) (reward : List ℚ)
    (traj : List Nat) : ℚ :=
  (traj.foldl (trajQualityStep G gamma reward) (0, 0)).1

/-- `GTBIRL._expert_trajectory_quality`: one quality value per expert
trajectory in `demos`. -/
def expertTrajectoryQuality (G : MDPGraph) (gamma : ℚ) (reward : List ℚ)
    (demos : List (List Nat)) : List ℚ :=
  demos.map (trajQuality G gamma reward)

/-- `GTBIRL._generated_trajectory_quality`: one quality value per generated
trajectory, grouped by iteration. -/
def generatedTrajectoryQuality (G : MDPGraph) (gamma : ℚ) (reward : List ℚ)
    (g_trajs : List (List (List Nat))) : List (List ℚ) :=
  g_trajs.map (fun g_traj => g_traj.map (trajQuality G gamma reward))

/-- The specification's reading of trajectory quality: a direct recursive
sum over the visited nodes, carrying the elapsed time. -/
def specTrajQuality (G : MDPGraph) (gamma : ℚ) (reward : List ℚ) :
    List Nat → Nat → ℚ
  | [], _ => 0
  | n :: rest, time =>
    let actions := G.out_edges n
    if actions.isEmpty then
      gamma ^ time * 100 + specTrajQuality G gamma reward rest time
    else
      let e := actions.getD (G.gnaPi n) (0, 0)
      gamma ^ time * npDot reward (G.geaPhi e.1 e.2) +
        specTrajQuality G gamma reward rest (time + G.geaDuration e.1 e.2)

/-- A concrete two-node graph: node 0 has one edge to node 1 with
`phi = [1, 0]` and duration 1; node 1 is terminal. -/
def twoNodeGraph : MDPGraph where
  out_edges := fun n => if n = 0 then [(0, 1)] else []
  gnaPi := fun _ => 0
  geaPhi := fun _ _ => [1, 0]
  geaDuration := fun _ _ => 1

/-- Abstract interface to a concrete GTBIRL variant together with the
external graph representation: `initialize_reward` and `find_next_reward`
are the abstract methods a subclass supplies; `update_rewards`,
`policy_iteration` (the in-place annotation effect of
`graph_policy_iteration`) and `find_best_policies` are the operations
`GTBIRL.solve` / `GTBIRL._compute_policy` invoke on the representation. -/
structure GTBIRLModel (R Rep T : Type) where
  demos : T
  rep0 : Rep
  initialize_reward : R
  find_next_reward : List T → R
  update_rewards : Rep → R → Rep
  policy_iteration : Rep → Rep
  find_best_policies : Rep → T

/-- Observable state of one `GTBIRL.solve` run: the current reward, the
current representation handle `self._rep`, the trajectory history
`g_trajs`, the emitted progress messages, and instrumentation counters for
the number of calls to `find_next_reward`, to policy iteration, and to
trajectory extraction. -/
structure SolveState (R Rep T : Type) where
  reward : R
  rep : Rep
  g_trajs : List T
  msgs : List Nat
  nFind : Nat
  nPolicy : Nat
  nExtract : Nat

/-- One iteration of the loop body of `GTBIRL.solve`: derive the next
reward from the full history, update edge rewards and run policy iteration
(`self._compute_policy`), extract the best-policy trajectories, append
them to the history, and emit the iteration index. -/
def solveIter {R Rep T : Type} (M : GTBIRLModel R Rep T)
    (s : SolveState R Rep T) (iteration : Nat) : SolveState R Rep T :=
  let reward := M.find_next_reward s.g_trajs
  let rep1 := M.update_rewards s.rep reward
  let rep2 := M.policy_iteration rep1
  let trajs := M.find_best_policies rep2
  { reward := reward
    rep := rep2
    g_trajs := s.g_trajs ++ [trajs]
    msgs := s.msgs ++ [iteration]
    nFind := s.nFind + 1
    nPolicy := s.nPolicy + 1
    nExtract := s.nExtract + 1 }

/-- `GTBIRL.solve`: seed the reward with `initialize_reward()`, seed the
history with (a deep copy of) the demonstrations, then run the loop body
for `iteration in range(max_iter)`. -/
def solve {R Rep T : Type} (M : GTBIRLModel R Rep T) (max_iter : Nat) :
    SolveState R Rep T :=
  (List.range max_iter).foldl (solveIter M)
    { reward := M.initialize_reward
      rep := M.rep0
      g_trajs := [M.demos]
      msgs := []
      nFind := 0
      nPolicy := 0
      nExtract := 0 }

/-- A concrete trivial GTBIRL instance over naturals, used to evaluate the
solve loop at concrete iteration counts. -/
def natModel : GTBIRLModel Nat Nat Nat where
  demos := 7
  rep0 := 1
  initialize_reward := 0
  find_next_reward := fun h => h.length
  update_rewards := fun rep r => rep + r
  policy_iteration := fun rep => rep * 2
  find_best_policies := fun rep => rep + 1

/-- `UniformRewardPrior.__call__`: `rp = np.ones(r.shape[0])`, returned as
`rp / np.sum(rp)`. -/
def uniformRewardPriorCall (r : List ℚ) : List ℚ :=
  let rp := List.replicate r.length (1 : ℚ)
  rp.map (fun x => x / rp.sum)

/-- `GaussianRewardPrior.__call__`:
`rp = np.exp(-np.square(r)/(2.0*sigma**2)) / np.sqrt(2.0*np.pi) * sigma`,
returned as `rp / np.sum(rp)`.  `exp` models `np.exp` and `sqrt2pi` the
constant `np.sqrt(2.0*np.pi)`, both abstract parameters. -/
def gaussianRewardPriorCall (exp : ℚ → ℚ) (sqrt2pi sigma : ℚ)
    (r : List ℚ) : List ℚ :=
  let rp := r.map (fun x => exp (-(x ^ 2) / (2 * sigma ^ 2)) / sqrt2pi * sigma)
  rp.map (fun x => x / rp.sum)

/-- `LaplacianRewardPrior.__call__`:
`rp = np.exp(-np.fabs(r)/(2.0*sigma)) / (2.0*sigma)`, returned as
`rp / np.sum(rp)`. -/
def laplacianRewardPriorCall (exp : ℚ → ℚ) (sigma : ℚ)
    (r : List ℚ) : List ℚ :=
  let rp := r.map (fun x => exp (-|x| / (2 * sigma)) / (2 * sigma))
  rp.map (fun x => x / rp.sum)

/-- The value `np.log` produces at a float: a finite value for positive
input, minus infinity at zero, and NaN for negative input.  The finite
value is given by the abstract function `log`. -/
inductive NpLogVal where
  | val (x : ℚ)
  | neginf
  | nan
  deriving DecidableEq

/-- Elementwise behaviour of `np.log` over the modelled reals. -/
def npLog (log : ℚ → ℚ) (x : ℚ) : NpLogVal :=
  if 0 < x then .val (log x) else if x = 0 then .neginf else .nan

/-- `PolicyWalkProposal.__call__`: `new_loc = np.array(loc)` makes a copy
(the input array is never mutated), then a rejection loop repeatedly draws
`d = choice([-delta, delta])` (the Bool selects `+delta` when true) and
`i = randint(dim)` until a move is admissible; in bounded mode a move is
admissible when `-1 <= new_loc[i] + d <= 1`, in unbounded mode always.
The randomness is supplied as a stream of (sign, index) draws; `none`
models the rejection loop still running when the stream is exhausted. -/
def policyWalkCall (delta : ℚ) (bounded : Bool) (loc : List ℚ) :
    List (Bool × Nat) → Option (List ℚ)
  | [] => none
  | (s, i) :: rs =>
    let d := if s then delta else -delta
    if bounded then
      if -1 ≤ loc.getD i 0 + d ∧ loc.getD i 0 + d ≤ 1 then
        some (loc.set i (loc.getD i 0 + d))
      else
        policyWalkCall delta bounded loc rs
    else
      some (loc.set i (loc.getD i 0 + d))

/-- `UniformRewardPrior.log_p`: `np.log(self.__call__(r))`. -/
def uniformRewardPriorLogP (log : ℚ → ℚ) (r : List ℚ) : List NpLogVal :=
  (uniformRewardPriorCall r).map (npLog log)

/-- `GaussianRewardPrior.log_p`: `np.log(self.__call__(r))`. -/
def gaussianRewardPriorLogP (log exp : ℚ → ℚ) (sqrt2pi sigma : ℚ)
    (r : List ℚ) : List NpLogVal :=
  (gaussianRewardPriorCall exp sqrt2pi sigma r).map (npLog log)

/-- `LaplacianRewardPrior.log_p`: `np.log(self.__call__(r))`. -/
def laplacianRewardPriorLogP (log exp : ℚ → ℚ) (sigma : ℚ)
    (r : List ℚ) : List NpLogVal :=
  (laplacianRewardPriorCall exp sigma r).map (npLog log)

/-- Modelled from the spec: `self._template`, set by the `MDPReward` base
class in `sirl.models.base` (which is not among the sources), is the
feature-name template used by the reflection-based `dim` property, whose
doc string reads "count all class members named _feature_x". -/
def featureTemplate : String := "_feature_"

/-- The class member names of `SimpleBehaviors` (its class dictionary):
the implicit dunder entries plus the declared methods and properties. -/
def simpleBehaviorsMembers : List String :=
  ["__module__", "__qualname__", "__doc__", "__init__", "__call__", "dim",
   "_feature_goal_deviation", "_feature_social_disturbance",
   "_feature_relation_disturbance"]

/-- The class member names of `FlowBehaviors` (its class dictionary). -/
def flowBehaviorsMembers : List String :=
  ["__module__", "__qualname__", "__doc__", "__init__", "__call__", "dim",
   "_feature_goal_deviation", "_feature_goal_distance", "_feature_density",
   "_feature_relative_bearing", "_goal_orientation"]

/-- Python `str.startswith` on the underlying character lists. -/
def charListStartswith : List Char → List Char → Bool
  | _, [] => true
  | [], _ :: _ => false
  | c :: cs, d :: ds => c = d && charListStartswith cs ds

/-- Python `s.startswith(t)`. -/
def pyStartswith (s t : String) : Bool :=
  charListStartswith s.data t.data

/-- The `dim` property shared by both reward functions:
`sum([f.startswith(self._template) for f in ffs])` over the class member
names. -/
def rewardFunctionDim (ffs : List String) : Nat :=
  (ffs.map (fun f => if pyStartswith f featureTemplate then 1 else 0)).sum

/-- `SimpleBehaviors.__init__`: stores the weights, then asserts
`self._weights.size == self.dim` and `0.0 < discount <= 1.0`; `none`
models an assertion failure (construction does not complete). -/
def simpleBehaviorsInit (weights : List ℚ) (discount : ℚ) :
    Option (List ℚ × ℚ) :=
  if weights.length = rewardFunctionDim simpleBehaviorsMembers then
    if 0 < discount ∧ discount ≤ 1 then some (weights, discount) else none
  else none

/-- `FlowBehaviors.__init__`: same two assertions against the
`FlowBehaviors` feature count. -/
def flowBehaviorsInit (weights : List ℚ) (discount : ℚ) :
    Option (List ℚ × ℚ) :=
  if weights.length = rewardFunctionDim flowBehaviorsMembers then
    if 0 < discount ∧ discount ≤ 1 then some (weights, discount) else none
  else none

/-- Modelled from the spec: the geometry utilities of
`sirl.utils.geometry` (`edist`, `anisotropic_distance`,
`distance_to_segment`) are external collaborators, and `np.hypot` is a
transcendental library routine; all enter the model as abstract function
parameters.  Persons are numpy rows `x, y, vx, vy` and waypoints rows
`x, y`, both modelled as `List ℚ`. -/
structure Geometry where
  edist : List ℚ → List ℚ → ℚ
  anisotropic_distance : List ℚ → List ℚ → ℚ → ℚ
  distance_to_segment : List ℚ → ℚ × ℚ → ℚ × ℚ → ℚ × Bool
  hypot : ℚ → ℚ → ℚ

/-- The world state a `SimpleBehaviors` instance reads: the person rows
(the values of `self._world.persons`, whose dict keys are the list
positions), the pairwise relations (pairs of person keys), and the goal. -/
structure NavWorld where
  persons : List (List ℚ)
  relations : List (Nat × Nat)
  goal : List ℚ

/-- The instance fields of a `SimpleBehaviors` object that `__call__`
reads, and — for `_szone` — writes. -/
structure SimpleBehaviorsState where
  weights : List ℚ
  scaled : Bool
  anisotropic : Bool
  thresh_p : ℚ
  thresh_r : ℚ
  szone : ℚ
  behavior : String
  gamma : ℚ
  deriving DecidableEq

/-- The closest-person scan of `_feature_social_disturbance`: start from
`people[0]` and keep any strictly closer person, returning the person and
its distance to the waypoint. -/
def closestPersonScan (g : Geometry) (wp : List ℚ) (p0 : List ℚ)
    (rest : List (List ℚ)) : List ℚ × ℚ :=
  rest.foldl (fun acc p =>
    let dist := g.edist p wp
    if dist < acc.2 then (p, dist) else acc) (p0, g.edist p0 wp)

/-- The speed `np.hypot(closest_person[2], closest_person[3])` of the
closest person to a waypoint. -/
def closestPersonSpeed (g : Geometry) (p0 : List ℚ) (rest : List (List ℚ))
    (wp : List ℚ) : ℚ :=
  let closest := (closestPersonScan g wp p0 rest).1
  g.hypot (closest.getD 2 0) (closest.getD 3 0)

/-- Loop body of `_feature_social_disturbance` for one enumerated
waypoint `(t, waypoint)`, threading the accumulated feature value and the
mutable `_szone` field: when `scaled`, the boundary is scaled by the
closest person's speed and `self._szone *= speed` before the branch on
`behavior` and `anisotropic` is taken. -/
def socialDisturbanceStep (g : Geometry) (s0 : SimpleBehaviorsState)
    (p0 : List ℚ) (rest : List (List ℚ))
    (acc : ℚ × ℚ) (twp : Nat × List ℚ) : ℚ × ℚ :=
  let t := twp.1
  let wp := twp.2
  let f := acc.1
  let cp := closestPersonScan g wp p0 rest
  let cdist := cp.2
  let speed := g.hypot (cp.1.getD 2 0) (cp.1.getD 3 0)
  let boundary := if s0.scaled then s0.thresh_p * speed else s0.thresh_p
  let szone1 := if s0.scaled then acc.2 * speed else acc.2
  if s0.behavior = "sociable" then
    if s0.anisotropic then
      let ad := g.anisotropic_distance cp.1 wp 3
      let f1 := if cdist < ad ∧ cdist < szone1 ∧ cdist < boundary then
        f + (boundary - cdist) * s0.gamma ^ t else f
      let f2 := if cdist < ad ∧ cdist > szone1 ∧ cdist < boundary then
        f1 + (cdist - boundary) * s0.gamma ^ t else f1
      (f2, szone1)
    else
      let f1 := if cdist < szone1 ∧ cdist < boundary then
        f + (boundary - cdist) * s0.gamma ^ t else f
      let f2 := if cdist > szone1 ∧ cdist < boundary then
        f1 + (cdist - boundary) * s0.gamma ^ t else f1
      (f2, szone1)
  else
    if s0.anisotropic then
      let ad := g.anisotropic_distance cp.1 wp 3
      (if cdist < ad ∧ cdist < boundary then
        f + (boundary - cdist) * s0.gamma ^ t else f, szone1)
    else
      (if cdist < boundary then
        f + (boundary - cdist) * s0.gamma ^ t else f, szone1)

/-- `SimpleBehaviors._feature_social_disturbance`: the feature value
together with the final `_szone` field; `none` models the IndexError of
`people[0]` when the loop runs with no persons in the world. -/
def featureSocialDisturbance (g : Geometry) (s : SimpleBehaviorsState)
    (w : NavWorld) (action : List (List ℚ)) : Option (ℚ × ℚ) :=
  match w.persons with
  | [] => if action.isEmpty then some (0, s.szone) else none
  | p0 :: rest =>
    some (action.enum.foldl (socialDisturbanceStep g s p0 rest) (0, s.szone))

/-- `SimpleBehaviors._feature_goal_deviation`: discounted sum of the
per-step recessions from the goal. -/
def featureGoalDeviationSimple (g : Geometry) (s : SimpleBehaviorsState)
    (w : NavWorld) (action : List (List ℚ)) : ℚ :=
  ((List.range (action.length - 1)).map (fun i =>
    let dnow := g.edist w.goal (action.getD i [])
    let dnext := g.edist w.goal (action.getD (i + 1) [])
    max (dnext - dnow) 0 * s.gamma ^ i)).sum

/-- `SimpleBehaviors._feature_relation_disturbance`: discounted sum of the
intrusions of waypoints into the segments joining related persons. -/
def featureRelationDisturbance (g : Geometry) (s : SimpleBehaviorsState)
    (w : NavWorld) (action : List (List ℚ)) : ℚ :=
  (action.enum.map (fun twp =>
    (w.relations.map (fun ij =>
      let pa := w.persons.getD ij.1 [0, 0, 0, 0]
      let pb := w.persons.getD ij.2 [0, 0, 0, 0]
      let ds := g.distance_to_segment twp.2 (pa.getD 0 0, pa.getD 1 0)
        (pb.getD 0 0, pb.getD 1 0)
      if ds.2 ∧ ds.1 < s.thresh_r then
        (s.thresh_r - ds.1) * s.gamma ^ twp.1
      else 0)).sum)).sum

/-- `SimpleBehaviors.__call__`: builds
`phi = [relation_disturbance, social_disturbance, goal_deviation]`
(the social term updating `_szone` when `scaled`), then returns
`np.dot(phi, self._weights)` and `phi`, together with the instance state
after the call. -/
def simpleBehaviorsCall (g : Geometry) (s : SimpleBehaviorsState)
    (w : NavWorld) (action : List (List ℚ)) :
    Option (ℚ × List ℚ × SimpleBehaviorsState) :=
  match featureSocialDisturbance g s w action with
  | none => none
  | some fs =>
    let phi := [featureRelationDisturbance g s w action, fs.1,
                featureGoalDeviationSimple g s w action]
    some (npDot phi s.weights, phi, { s with szone := fs.2 })

/-- A concrete geometry used to evaluate the model: constant unit
distances and additive speed. -/
def unitGeometry : Geometry where
  edist := fun _ _ => 1
  anisotropic_distance := fun _ _ _ => 0
  distance_to_segment := fun _ _ _ => (0, false)
  hypot := fun a b => a + b

/-- A concrete world with one person at the origin moving with velocity
`(0, 2)`. -/
def onePersonWorld : NavWorld where
  persons := [[0, 0, 0, 2]]
  relations := []
  goal := [0, 0]

/-- A concrete scaled sociable `SimpleBehaviors` instance state. -/
def sociableState : SimpleBehaviorsState where
  weights := [0, 1, 0]
  scaled := true
  anisotropic := false
  thresh_p := 9/5
  thresh_r := 6/5
  szone := 3/10
  behavior := "sociable"
  gamma := 19/20

lemma trajQuality_foldl_eq (G : MDPGraph) (gamma : ℚ) (reward : List ℚ)
    (traj : List Nat) :
    ∀ (q : ℚ) (time : Nat),
      (traj.foldl (trajQualityStep G gamma reward) (q, time)).1 =
        q + specTrajQuality G gamma reward traj time := by
  induction traj with
  | nil => intro q time; simp [specTrajQuality]
  | cons n rest ih =>
    intro q time
    simp only [List.foldl_cons, specTrajQuality, trajQualityStep]
    by_cases h : (G.out_edges n).isEmpty
    · simp [h, ih, add_assoc]
    · simp [h, ih, add_assoc]

/-- C1: for every graph, discount, reward-weight vector and trajectory, the
quality computed by `_expert_trajectory_quality` (per demo trajectory) and
by `_generated_trajectory_quality` (per generated trajectory, grouped by
iteration) equals the recursive sum over visited nodes: a node with
outgoing edges contributes `gamma ^ time * (reward · phi)` of the
`pi`-selected edge and advances the elapsed time by the edge's duration; a
terminal node contributes `gamma ^ time * 100` with time unchanged; the
elapsed time starts at 0, so a single-terminal-node trajectory has quality
exactly 100. -/
theorem trajectory_quality_spec (G : MDPGraph) (gamma : ℚ) (reward : List ℚ)
    (demos : List (List Nat)) (g_trajs : List (List (List Nat))) :
    expertTrajectoryQuality G gamma reward demos =
      demos.map (fun t => specTrajQuality G gamma reward t 0) ∧
    generatedTrajectoryQuality G gamma reward g_trajs =
      g_trajs.map (fun g => g.map (fun t => specTrajQuality G gamma reward t 0)) ∧
    ∀ n, G.out_edges n = [] → trajQuality G gamma reward [n] = 100 := by
  refine ⟨?_, ?_, ?_⟩
  · apply List.map_congr_left
    intro t _
    simpa using trajQuality_foldl_eq G gamma reward t 0 0
  · apply List.map_congr_left
    intro g _
    apply List.map_congr_left
    intro t _
    simpa using trajQuality_foldl_eq G gamma reward t 0 0
  · intro n hn
    simp [trajQuality, trajQualityStep, hn]

/-- C1 witness: on the concrete graph, the single-terminal-node trajectory
`[1]` has quality exactly 100. -/
theorem trajectory_quality_spec_witness :
    trajQuality twoNodeGraph (9/10) [1, 1] [1] = 100 :=
  (trajectory_quality_spec twoNodeGraph (9/10) [1, 1] [] []).2.2 1 (by decide)

lemma solve_succ {R Rep T : Type} (M : GTBIRLModel R Rep T) (k : Nat) :
    solve M (k + 1) = solveIter M (solve M k) k := by
  simp [solve, List.range_succ]

lemma solve_stats {R Rep T : Type} (M : GTBIRLModel R Rep T) :
    ∀ k, (solve M k).g_trajs.length = k + 1 ∧
      (solve M k).msgs = List.range k ∧
      (solve M k).nFind = k ∧ (solve M k).nPolicy = k ∧
      (solve M k).nExtract = k := by
  intro k
  induction k with
  | zero => exact ⟨rfl, rfl, rfl, rfl, rfl⟩
  | succ n ih =>
    rw [solve_succ]
    refine ⟨?_, ?_, ?_, ?_, ?_⟩
    · simp [solveIter, ih.1]
    · simp [solveIter, ih.2.1, List.range_succ]
    · simp [solveIter, ih.2.2.1]
    · simp [solveIter, ih.2.2.2.1]
    · simp [solveIter, ih.2.2.2.2]

/-- C2: for `max_iter = k > 0`, `GTBIRL.solve` seeds the history with the
demonstration set, performs exactly `k` iterations — each one calling
`find_next_reward` on the full history, then updating edge rewards and
running policy iteration, then extracting and appending generated
trajectories, then emitting the iteration index (so the counters all equal
`k` and the messages are `0, …, k-1`) — the final history has length
`k + 1`, and the returned reward is the one produced by the last call to
`find_next_reward`. -/
theorem solve_loop_spec {R Rep T : Type} (M : GTBIRLModel R Rep T)
    (k : Nat) (hk : 0 < k) :
    (solve M k).g_trajs.length = k + 1 ∧
    (solve M k).msgs = List.range k ∧
    (solve M k).nFind = k ∧
    (solve M k).nPolicy = k ∧
    (solve M k).nExtract = k ∧
    (∀ j, j < k → solve M (j + 1) = solveIter M (solve M j) j) ∧
    solve M k = solveIter M (solve M (k - 1)) (k - 1) ∧
    (solve M k).reward = M.find_next_reward (solve M (k - 1)).g_trajs := by
  obtain ⟨n, rfl⟩ : ∃ n, k = n + 1 := ⟨k - 1, (Nat.succ_pred_eq_of_pos hk).symm⟩
  refine ⟨(solve_stats M _).1, (solve_stats M _).2.1, (solve_stats M _).2.2.1,
    (solve_stats M _).2.2.2.1, (solve_stats M _).2.2.2.2,
    fun j _ => solve_succ M j, ?_, ?_⟩
  · simpa using solve_succ M n
  · simp only [Nat.add_sub_cancel]
    rw [solve_succ]
    rfl

/-- C2 witness: the loop properties evaluated on the trivial concrete
model at `k = 3`. -/
theorem solve_loop_spec_witness :
    (solve natModel 3).g_trajs.length = 3 + 1 ∧
    (solve natModel 3).msgs = List.range 3 ∧
    (solve natModel 3).nFind = 3 ∧
    (solve natModel 3).nPolicy = 3 ∧
    (solve natModel 3).nExtract = 3 ∧
    (∀ j, j < 3 → solve natModel (j + 1) = solveIter natModel (solve natModel j) j) ∧
    solve natModel 3 = solveIter natModel (solve natModel (3 - 1)) (3 - 1) ∧
    (solve natModel 3).reward =
      natModel.find_next_reward (solve natModel (3 - 1)).g_trajs :=
  solve_loop_spec natModel 3 (by decide)

/-- C3: with `max_iter = 0`, `GTBIRL.solve` returns exactly
`initialize_reward()`, performs no call to `find_next_reward`, no
edge-reward update or policy-iteration solve, and no trajectory
extraction, and leaves the representation handle `self._rep` unchanged
(the history holds only the seeded demonstration copy and no message is
emitted). -/
theorem solve_zero_iterations {R Rep T : Type} (M : GTBIRLModel R Rep T) :
    (solve M 0).reward = M.initialize_reward ∧
    (solve M 0).rep = M.rep0 ∧
    (solve M 0).nFind = 0 ∧
    (solve M 0).nPolicy = 0 ∧
    (solve M 0).nExtract = 0 ∧
    (solve M 0).g_trajs = [M.demos] ∧
    (solve M 0).msgs = [] :=
  ⟨rfl, rfl, rfl, rfl, rfl, rfl, rfl⟩

lemma solve_g_trajs_head {R Rep T : Type} (M : GTBIRLModel R Rep T) :
    ∀ k, ∃ l, (solve M k).g_trajs = M.demos :: l := by
  intro k
  induction k with
  | zero => exact ⟨[], rfl⟩
  | succ n ih =>
    obtain ⟨l, hl⟩ := ih
    refine ⟨l ++ [M.find_best_policies (M.policy_iteration
      (M.update_rewards (solve M n).rep
        (M.find_next_reward (solve M n).g_trajs)))], ?_⟩
    rw [solve_succ]
    simp [solveIter, hl]

/-- C8: the history of `GTBIRL.solve` is append-only and its seeded first
element — the (deep copy of the) demonstration set — is preserved: at
every iteration count the head of the history is the demonstrations, and
one further iteration only appends a single new generated-trajectory set
to the existing history. -/
theorem solve_history_append_only {R Rep T : Type}
    (M : GTBIRLModel R Rep T) (k : Nat) :
    (solve M k).g_trajs.head? = some M.demos ∧
    ∃ t, (solve M (k + 1)).g_trajs = (solve M k).g_trajs ++ [t] := by
  constructor
  · obtain ⟨l, hl⟩ := solve_g_trajs_head M k
    simp [hl]
  · exact ⟨_, by rw [solve_succ]; rfl⟩

lemma sum_map_div (l : List ℚ) (s : ℚ) :
    (l.map (fun x => x / s)).sum = l.sum / s := by
  induction l with
  | nil => simp
  | cons a t ih => simp [ih, add_div]

lemma normalized_sum_eq_one (rp : List ℚ) (h : rp.sum ≠ 0) :
    (rp.map (fun x => x / rp.sum)).sum = 1 := by
  rw [sum_map_div, div_self h]

/-- C5: for each of the three prior variants, on a non-empty batch whose
unnormalized densities do not sum to zero, `evaluate` returns a vector of
the batch's length whose entries sum to 1. -/
theorem prior_evaluate_sums_to_one (exp : ℚ → ℚ) (sqrt2pi sigma : ℚ)
    (r : List ℚ) (hr : r ≠ [])
    (hg : (r.map (fun x =>
      exp (-(x ^ 2) / (2 * sigma ^ 2)) / sqrt2pi * sigma)).sum ≠ 0)
    (hl : (r.map (fun x => exp (-|x| / (2 * sigma)) / (2 * sigma))).sum ≠ 0) :
    ((uniformRewardPriorCall r).length = r.length ∧
      (uniformRewardPriorCall r).sum = 1) ∧
    ((gaussianRewardPriorCall exp sqrt2pi sigma r).length = r.length ∧
      (gaussianRewardPriorCall exp sqrt2pi sigma r).sum = 1) ∧
    ((laplacianRewardPriorCall exp sigma r).length = r.length ∧
      (laplacianRewardPriorCall exp sigma r).sum = 1) := by
  refine ⟨⟨by simp [uniformRewardPriorCall], ?_⟩,
    ⟨by simp [gaussianRewardPriorCall], ?_⟩,
    ⟨by simp [laplacianRewardPriorCall], ?_⟩⟩
  · apply normalized_sum_eq_one
    have hlen : r.length ≠ 0 := fun h => hr (List.length_eq_zero.mp h)
    simp only [List.sum_replicate, nsmul_eq_mul, mul_one]
    exact_mod_cast hlen
  · exact normalized_sum_eq_one _ hg
  · exact normalized_sum_eq_one _ hl

/-- C5 witness: the three normalization properties evaluated at the
concrete batch `[0]` with `exp = const 1`, `sqrt2pi = 1`, `sigma = 1`. -/
theorem prior_evaluate_sums_to_one_witness :
    ((uniformRewardPriorCall [0]).length = ([0] : List ℚ).length ∧
      (uniformRewardPriorCall [0]).sum = 1) ∧
    ((gaussianRewardPriorCall (fun _ => 1) 1 1 [0]).length =
        ([0] : List ℚ).length ∧
      (gaussianRewardPriorCall (fun _ => 1) 1 1 [0]).sum = 1) ∧
    ((laplacianRewardPriorCall (fun _ => 1) 1 [0]).length =
        ([0] : List ℚ).length ∧
      (laplacianRewardPriorCall (fun _ => 1) 1 [0]).sum = 1) :=
  prior_evaluate_sums_to_one (fun _ => 1) 1 1 [0] (by simp)
    (by norm_num) (by norm_num)

/-- C6: the constant prefactor `sigma / np.sqrt(2π)` that the Gaussian
prior applies to each unnormalized entry cancels under the per-batch L1
normalization: entry `i` of `evaluate(r)` equals
`exp(-r_i^2/(2σ^2))` divided by the sum over `j` of `exp(-r_j^2/(2σ^2))`. -/
theorem gaussian_prior_prefactor_cancels (exp : ℚ → ℚ) (sqrt2pi sigma : ℚ)
    (hs : sqrt2pi ≠ 0) (hσ : sigma ≠ 0) (r : List ℚ) :
    gaussianRewardPriorCall exp sqrt2pi sigma r =
      r.map (fun x => exp (-(x ^ 2) / (2 * sigma ^ 2)) /
        (r.map (fun y => exp (-(y ^ 2) / (2 * sigma ^ 2)))).sum) := by
  set g : ℚ → ℚ := fun x => exp (-(x ^ 2) / (2 * sigma ^ 2)) with hgdef
  have hc : sigma / sqrt2pi ≠ 0 := div_ne_zero hσ hs
  have hmap : r.map (fun x => g x / sqrt2pi * sigma) =
      r.map (fun x => g x * (sigma / sqrt2pi)) := by
    apply List.map_congr_left
    intro x _
    rw [div_mul_eq_mul_div, mul_div_assoc]
  unfold gaussianRewardPriorCall
  rw [hmap, List.map_map]
  apply List.map_congr_left
  intro x _
  simp only [Function.comp_apply, List.sum_map_mul_right]
  exact mul_div_mul_right _ _ hc

/-- C6 witness: with `exp = const 1`, `sqrt2pi = 2`, `sigma = 1` on the
batch `[3, 4]`, both sides evaluate to `[1/2, 1/2]`. -/
theorem gaussian_prior_prefactor_cancels_witness :
    gaussianRewardPriorCall (fun _ => 1) 2 1 [3, 4] =
      ([3, 4] : List ℚ).map (fun x => (fun _ => (1 : ℚ)) (-(x ^ 2) / (2 * 1 ^ 2)) /
        (([3, 4] : List ℚ).map (fun y =>
          (fun _ => (1 : ℚ)) (-(y ^ 2) / (2 * 1 ^ 2)))).sum) :=
  gaussian_prior_prefactor_cancels (fun _ => 1) 2 1 (by norm_num) (by norm_num) [3, 4]

lemma forall2_npLog (log : ℚ → ℚ) (l : List ℚ) (hl : ∀ x ∈ l, 0 ≤ x) :
    List.Forall₂ (fun v d => (v = NpLogVal.neginf ↔ d = 0) ∧
      (0 < d → v = NpLogVal.val (log d))) (l.map (npLog log)) l := by
  induction l with
  | nil => exact List.Forall₂.nil
  | cons a t ih =>
    refine List.Forall₂.cons ?_ (ih fun x hx => hl x (List.mem_cons_of_mem a hx))
    have ha : 0 ≤ a := hl a (List.mem_cons_self a t)
    rcases lt_or_eq_of_le ha with hlt | heq
    · constructor
      · simp [npLog, hlt, hlt.ne.symm]
      · intro _; simp [npLog, hlt]
    · constructor
      · simp [npLog, ← heq]
      · intro hpos; exact absurd hpos (by simp [← heq])

lemma normalized_entries_pos (rp : List ℚ) (hp : ∀ x ∈ rp, 0 < x)
    (hne : rp ≠ []) :
    ∀ y ∈ rp.map (fun x => x / rp.sum), 0 < y := by
  intro y hy
  obtain ⟨x, hx, rfl⟩ := List.mem_map.1 hy
  exact div_pos (hp x hx) (List.sum_pos rp hp hne)

lemma uniform_entries_pos (r : List ℚ) (hr : r ≠ []) :
    ∀ y ∈ uniformRewardPriorCall r, 0 < y := by
  apply normalized_entries_pos
  · intro x hx
    rw [List.eq_of_mem_replicate hx]
    exact one_pos
  · simpa using fun h => hr (List.length_eq_zero.mp h)

lemma gaussian_entries_pos (exp : ℚ → ℚ) (sqrt2pi sigma : ℚ) (r : List ℚ)
    (hr : r ≠ []) (hexp : ∀ x, 0 < exp x) (hs : 0 < sqrt2pi) (hσ : 0 < sigma) :
    ∀ y ∈ gaussianRewardPriorCall exp sqrt2pi sigma r, 0 < y := by
  apply normalized_entries_pos
  · intro x hx
    obtain ⟨z, _, rfl⟩ := List.mem_map.1 hx
    exact mul_pos (div_pos (hexp _) hs) hσ
  · simpa using hr

lemma laplacian_entries_pos (exp : ℚ → ℚ) (sigma : ℚ) (r : List ℚ)
    (hr : r ≠ []) (hexp : ∀ x, 0 < exp x) (hσ : 0 < sigma) :
    ∀ y ∈ laplacianRewardPriorCall exp sigma r, 0 < y := by
  apply normalized_entries_pos
  · intro x hx
    obtain ⟨z, _, rfl⟩ := List.mem_map.1 hx
    exact div_pos (hexp _) (by linarith)
  · simpa using hr

/-- C7: for each prior variant, `log_p(r)` is the elementwise `np.log` of
`evaluate(r)`; positionally, an entry is minus infinity exactly when the
corresponding normalized density is zero, and wherever the density is
positive the entry is the finite value `log` of that density. -/
theorem log_density_matches_evaluate (log exp : ℚ → ℚ) (sqrt2pi sigma : ℚ)
    (r : List ℚ) (hr : r ≠ []) (hexp : ∀ x, 0 < exp x)
    (hs : 0 < sqrt2pi) (hσ : 0 < sigma) :
    uniformRewardPriorLogP log r =
      (uniformRewardPriorCall r).map (npLog log) ∧
    gaussianRewardPriorLogP log exp sqrt2pi sigma r =
      (gaussianRewardPriorCall exp sqrt2pi sigma r).map (npLog log) ∧
    laplacianRewardPriorLogP log exp sigma r =
      (laplacianRewardPriorCall exp sigma r).map (npLog log) ∧
    List.Forall₂ (fun v d => (v = NpLogVal.neginf ↔ d = 0) ∧
        (0 < d → v = NpLogVal.val (log d)))
      (uniformRewardPriorLogP log r) (uniformRewardPriorCall r) ∧
    List.Forall₂ (fun v d => (v = NpLogVal.neginf ↔ d = 0) ∧
        (0 < d → v = NpLogVal.val (log d)))
      (gaussianRewardPriorLogP log exp sqrt2pi sigma r)
      (gaussianRewardPriorCall exp sqrt2pi sigma r) ∧
    List.Forall₂ (fun v d => (v = NpLogVal.neginf ↔ d = 0) ∧
        (0 < d → v = NpLogVal.val (log d)))
      (laplacianRewardPriorLogP log exp sigma r)
      (laplacianRewardPriorCall exp sigma r) := by
  refine ⟨rfl, rfl, rfl, ?_, ?_, ?_⟩
  · exact forall2_npLog log _ fun x hx => (uniform_entries_pos r hr x hx).le
  · exact forall2_npLog log _ fun x hx =>
      (gaussian_entries_pos exp sqrt2pi sigma r hr hexp hs hσ x hx).le
  · exact forall2_npLog log _ fun x hx =>
      (laplacian_entries_pos exp sigma r hr hexp hσ x hx).le

/-- C7 witness: the log-density correspondence evaluated at the concrete
batch `[0]` with `log = const 0`, `exp = const 1`, `sqrt2pi = 1`,
`sigma = 1`. -/
theorem log_density_matches_evaluate_witness :
    uniformRewardPriorLogP (fun _ => 0) [0] =
      (uniformRewardPriorCall [0]).map (npLog (fun _ => 0)) ∧
    gaussianRewardPriorLogP (fun _ => 0) (fun _ => 1) 1 1 [0] =
      (gaussianRewardPriorCall (fun _ => 1) 1 1 [0]).map (npLog (fun _ => 0)) ∧
    laplacianRewardPriorLogP (fun _ => 0) (fun _ => 1) 1 [0] =
      (laplacianRewardPriorCall (fun _ => 1) 1 [0]).map (npLog (fun _ => 0)) ∧
    List.Forall₂ (fun v d => (v = NpLogVal.neginf ↔ d = 0) ∧
        (0 < d → v = NpLogVal.val ((fun _ => (0 : ℚ)) d)))
      (uniformRewardPriorLogP (fun _ => 0) [0]) (uniformRewardPriorCall [0]) ∧
    List.Forall₂ (fun v d => (v = NpLogVal.neginf ↔ d = 0) ∧
        (0 < d → v = NpLogVal.val ((fun _ => (0 : ℚ)) d)))
      (gaussianRewardPriorLogP (fun _ => 0) (fun _ => 1) 1 1 [0])
      (gaussianRewardPriorCall (fun _ => 1) 1 1 [0]) ∧
    List.Forall₂ (fun v d => (v = NpLogVal.neginf ↔ d = 0) ∧
        (0 < d → v = NpLogVal.val ((fun _ => (0 : ℚ)) d)))
      (laplacianRewardPriorLogP (fun _ => 0) (fun _ => 1) 1 [0])
      (laplacianRewardPriorCall (fun _ => 1) 1 [0]) :=
  log_density_matches_evaluate (fun _ => 0) (fun _ => 1) 1 1 [0]
    (by simp) (fun _ => one_pos) one_pos one_pos

lemma set_step_spec (delta : ℚ) (loc : List ℚ) (i : Nat)
    (hi : i < loc.length) (s : Bool) :
    ∃ k, k < loc.length ∧
      (loc.set i (loc.getD i 0 + if s then delta else -delta)).length =
        loc.length ∧
      (∀ j, j ≠ k →
        (loc.set i (loc.getD i 0 + if s then delta else -delta)).getD j 0 =
          loc.getD j 0) ∧
      ((loc.set i (loc.getD i 0 + if s then delta else -delta)).getD k 0 =
          loc.getD k 0 + delta ∨
       (loc.set i (loc.getD i 0 + if s then delta else -delta)).getD k 0 =
          loc.getD k 0 - delta) := by
  refine ⟨i, hi, by simp, ?_, ?_⟩
  · intro j hj
    simp only [List.getD_eq_getElem?_getD]
    rw [List.getElem?_set_ne (fun h => hj h.symm)]
  · have hval :
        (loc.set i (loc.getD i 0 + if s then delta else -delta)).getD i 0 =
          loc.getD i 0 + if s then delta else -delta := by
      simp only [List.getD_eq_getElem?_getD]
      rw [List.getElem?_set_self hi]
      rfl
    cases s with
    | true => left; simpa using hval
    | false => right; rw [hval]; simp [sub_eq_add_neg]

lemma policyWalkCall_cons_true (delta : ℚ) (loc : List ℚ) (s : Bool)
    (i : Nat) (rs : List (Bool × Nat)) :
    policyWalkCall delta true loc ((s, i) :: rs) =
      (if -1 ≤ loc.getD i 0 + (if s then delta else -delta) ∧
          loc.getD i 0 + (if s then delta else -delta) ≤ 1 then
        some (loc.set i (loc.getD i 0 + (if s then delta else -delta)))
      else policyWalkCall delta true loc rs) := rfl

lemma policyWalkCall_cons_false (delta : ℚ) (loc : List ℚ) (s : Bool)
    (i : Nat) (rs : List (Bool × Nat)) :
    policyWalkCall delta false loc ((s, i) :: rs) =
      some (loc.set i (loc.getD i 0 + (if s then delta else -delta))) := rfl

/-- C4: whenever `PolicyWalkProposal.__call__` returns, its output differs
from the input in exactly one coordinate, by exactly `+delta` or `-delta`
(the input itself is only copied, never mutated); with `bounded=False` the
loop body runs exactly once, returning on the first draw with no bound
check; with `bounded=True`, if every input coordinate lies in `[-1, 1]`
then so does every output coordinate. -/
theorem policy_walk_proposal_spec (delta : ℚ) (loc : List ℚ) :
    (∀ (bounded : Bool) (rs : List (Bool × Nat)) (out : List ℚ),
      policyWalkCall delta bounded loc rs = some out →
      (∀ p ∈ rs, p.2 < loc.length) →
      ∃ i, i < loc.length ∧ out.length = loc.length ∧
        (∀ j, j ≠ i → out.getD j 0 = loc.getD j 0) ∧
        (out.getD i 0 = loc.getD i 0 + delta ∨
         out.getD i 0 = loc.getD i 0 - delta)) ∧
    (∀ (s : Bool) (i : Nat) (rs : List (Bool × Nat)),
      policyWalkCall delta false loc ((s, i) :: rs) =
        some (loc.set i (loc.getD i 0 + if s then delta else -delta))) ∧
    (∀ (rs : List (Bool × Nat)) (out : List ℚ),
      policyWalkCall delta true loc rs = some out →
      (∀ x ∈ loc, -1 ≤ x ∧ x ≤ 1) →
      ∀ y ∈ out, -1 ≤ y ∧ y ≤ 1) := by
  refine ⟨?_, ?_, ?_⟩
  · intro bounded rs out
    induction rs with
    | nil => intro h; simp [policyWalkCall] at h
    | cons p rs ih =>
      obtain ⟨s, i⟩ := p
      intro h hrs
      have hi : i < loc.length := hrs (s, i) (List.mem_cons_self _ _)
      have htail : ∀ p ∈ rs, p.2 < loc.length :=
        fun p hp => hrs p (List.mem_cons_of_mem _ hp)
      cases bounded with
      | false =>
        rw [policyWalkCall_cons_false, Option.some.injEq] at h
        subst h
        exact set_step_spec delta loc i hi s
      | true =>
        rw [policyWalkCall_cons_true] at h
        by_cases hc : -1 ≤ loc.getD i 0 + (if s then delta else -delta) ∧
            loc.getD i 0 + (if s then delta else -delta) ≤ 1
        · rw [if_pos hc, Option.some.injEq] at h
          subst h
          exact set_step_spec delta loc i hi s
        · rw [if_neg hc] at h
          exact ih h htail
  · intro s i rs
    rw [policyWalkCall_cons_false]
  · intro rs out
    induction rs with
    | nil => intro h; simp [policyWalkCall] at h
    | cons p rs ih =>
      obtain ⟨s, i⟩ := p
      intro h hloc
      rw [policyWalkCall_cons_true] at h
      by_cases hc : -1 ≤ loc.getD i 0 + (if s then delta else -delta) ∧
          loc.getD i 0 + (if s then delta else -delta) ≤ 1
      · rw [if_pos hc, Option.some.injEq] at h
        subst h
        intro y hy
        rcases List.mem_or_eq_of_mem_set hy with hmem | rfl
        · exact hloc y hmem
        · exact hc
      · rw [if_neg hc] at h
        exact ih h hloc

/-- C4 witness: with `delta = 1/2` on the input `[0, 0]`, the bounded call
accepting the first draw `(sign = -delta, index = 0)` returns `[-1/2, 0]`,
whose coordinates all lie in `[-1, 1]`. -/
theorem policy_walk_proposal_spec_witness :
    (∃ i, i < ([0, 0] : List ℚ).length ∧
      ([-(1/2), 0] : List ℚ).length = ([0, 0] : List ℚ).length ∧
      (∀ j, j ≠ i → ([-(1/2), 0] : List ℚ).getD j 0 =
        ([0, 0] : List ℚ).getD j 0) ∧
      (([-(1/2), 0] : List ℚ).getD i 0 =
          ([0, 0] : List ℚ).getD i 0 + 1/2 ∨
       ([-(1/2), 0] : List ℚ).getD i 0 =
          ([0, 0] : List ℚ).getD i 0 - 1/2)) ∧
    (∀ y ∈ ([-(1/2), 0] : List ℚ), -1 ≤ y ∧ y ≤ 1) := by
  have hcall : policyWalkCall (1/2) true [0, 0] [(false, 0)] =
      some [-(1/2), 0] := by
    simp only [policyWalkCall]
    norm_num
  constructor
  · exact (policy_walk_proposal_spec (1/2) [0, 0]).1 true [(false, 0)]
      [-(1/2), 0] hcall (by decide)
  · exact (policy_walk_proposal_spec (1/2) [0, 0]).2.2 [(false, 0)]
      [-(1/2), 0] hcall (by norm_num)

/-- C9: with a weight vector whose size differs from the reflected feature
count the constructors of `SimpleBehaviors` and `FlowBehaviors` fail their
assertion before any solve can run, and with a matching size (3 features
for `SimpleBehaviors`, 4 for `FlowBehaviors`) construction succeeds. -/
theorem behaviors_init_dim_check (weights : List ℚ) (discount : ℚ)
    (hd : 0 < discount) (hd1 : discount ≤ 1) :
    rewardFunctionDim simpleBehaviorsMembers = 3 ∧
    rewardFunctionDim flowBehaviorsMembers = 4 ∧
    (weights.length ≠ 3 → simpleBehaviorsInit weights discount = none) ∧
    (weights.length = 3 →
      simpleBehaviorsInit weights discount = some (weights, discount)) ∧
    (weights.length ≠ 4 → flowBehaviorsInit weights discount = none) ∧
    (weights.length = 4 →
      flowBehaviorsInit weights discount = some (weights, discount)) := by
  have h3 : rewardFunctionDim simpleBehaviorsMembers = 3 := by decide
  have h4 : rewardFunctionDim flowBehaviorsMembers = 4 := by decide
  refine ⟨h3, h4, ?_, ?_, ?_, ?_⟩
  · intro h
    unfold simpleBehaviorsInit
    rw [h3, if_neg h]
  · intro h
    unfold simpleBehaviorsInit
    rw [h3, if_pos h, if_pos ⟨hd, hd1⟩]
  · intro h
    unfold flowBehaviorsInit
    rw [h4, if_neg h]
  · intro h
    unfold flowBehaviorsInit
    rw [h4, if_pos h, if_pos ⟨hd, hd1⟩]

/-- C9 witness: with the length-3 weight vector `[1, 2, 3]` and discount
`1/2`, `SimpleBehaviors` construction succeeds and `FlowBehaviors`
construction fails. -/
theorem behaviors_init_dim_check_witness :
    rewardFunctionDim simpleBehaviorsMembers = 3 ∧
    rewardFunctionDim flowBehaviorsMembers = 4 ∧
    (([1, 2, 3] : List ℚ).length ≠ 3 →
      simpleBehaviorsInit [1, 2, 3] (1/2) = none) ∧
    (([1, 2, 3] : List ℚ).length = 3 →
      simpleBehaviorsInit [1, 2, 3] (1/2) = some ([1, 2, 3], 1/2)) ∧
    (([1, 2, 3] : List ℚ).length ≠ 4 →
      flowBehaviorsInit [1, 2, 3] (1/2) = none) ∧
    (([1, 2, 3] : List ℚ).length = 4 →
      flowBehaviorsInit [1, 2, 3] (1/2) = some ([1, 2, 3], 1/2)) :=
  behaviors_init_dim_check [1, 2, 3] (1/2) (by norm_num) (by norm_num)

lemma socialDisturbanceStep_snd (g : Geometry) (s : SimpleBehaviorsState)
    (p0 : List ℚ) (rest : List (List ℚ)) (f z : ℚ) (twp : Nat × List ℚ)
    (hs : s.scaled = true) :
    (socialDisturbanceStep g s p0 rest (f, z) twp).2 =
      z * closestPersonSpeed g p0 rest twp.2 := by
  unfold socialDisturbanceStep closestPersonSpeed
  rw [hs]
  simp only [if_true]
  split
  · split
    · rfl
    · rfl
  · split
    · rfl
    · rfl

lemma socialDisturbanceStep_snd_unscaled (g : Geometry)
    (s : SimpleBehaviorsState) (p0 : List ℚ) (rest : List (List ℚ))
    (f z : ℚ) (twp : Nat × List ℚ) (hs : s.scaled = false) :
    (socialDisturbanceStep g s p0 rest (f, z) twp).2 = z := by
  unfold socialDisturbanceStep
  rw [hs]
  simp only [Bool.false_eq_true, if_false]
  split
  · split
    · rfl
    · rfl
  · split
    · rfl
    · rfl

lemma social_szone_foldl (g : Geometry) (s : SimpleBehaviorsState)
    (p0 : List ℚ) (rest : List (List ℚ)) (hs : s.scaled = true) :
    ∀ (l : List (Nat × List ℚ)) (f z : ℚ),
      (l.foldl (socialDisturbanceStep g s p0 rest) (f, z)).2 =
        z * (l.map (fun twp => closestPersonSpeed g p0 rest twp.2)).prod := by
  intro l
  induction l with
  | nil => intro f z; simp
  | cons a t ih =>
    intro f z
    rw [List.foldl_cons]
    have hstep : socialDisturbanceStep g s p0 rest (f, z) a =
        ((socialDisturbanceStep g s p0 rest (f, z) a).1,
         z * closestPersonSpeed g p0 rest a.2) :=
      Prod.ext rfl (socialDisturbanceStep_snd g s p0 rest f z a hs)
    rw [hstep, ih]
    simp [mul_assoc]

lemma social_szone_foldl_unscaled (g : Geometry) (s : SimpleBehaviorsState)
    (p0 : List ℚ) (rest : List (List ℚ)) (hs : s.scaled = false) :
    ∀ (l : List (Nat × List ℚ)) (f z : ℚ),
      (l.foldl (socialDisturbanceStep g s p0 rest) (f, z)).2 = z := by
  intro l
  induction l with
  | nil => intro f z; rfl
  | cons a t ih =>
    intro f z
    rw [List.foldl_cons]
    have hstep : socialDisturbanceStep g s p0 rest (f, z) a =
        ((socialDisturbanceStep g s p0 rest (f, z) a).1, z) :=
      Prod.ext rfl (socialDisturbanceStep_snd_unscaled g s p0 rest f z a hs)
    rw [hstep, ih]

lemma enum_map_speed (g : Geometry) (p0 : List ℚ) (rest : List (List ℚ))
    (action : List (List ℚ)) :
    action.enum.map (fun twp => closestPersonSpeed g p0 rest twp.2) =
      action.map (closestPersonSpeed g p0 rest) := by
  have h1 : action.enum.map (fun twp => closestPersonSpeed g p0 rest twp.2) =
      (action.enum.map Prod.snd).map (closestPersonSpeed g p0 rest) := by
    rw [List.map_map]
    rfl
  rw [h1]
  congr 1
  exact List.enumFrom_map_snd 0 action

/-- C10: `SimpleBehaviors.__call__` is impure when `scaled=True`: on any
world with at least one person it multiplies the instance field `_szone`
by the closest person's speed once per waypoint of the action (so the
final `_szone` is the old one times the product of those speeds), whereas
with `scaled=False` the call returns the instance state unchanged; and
there is a concrete instance on which two consecutive calls with identical
arguments return different rewards. -/
theorem simple_behaviors_call_impure (g : Geometry)
    (s : SimpleBehaviorsState) (w : NavWorld) (action : List (List ℚ))
    (p0 : List ℚ) (rest : List (List ℚ)) (hw : w.persons = p0 :: rest) :
    (s.scaled = true →
      ∃ r phi, simpleBehaviorsCall g s w action =
        some (r, phi, { s with szone :=
          s.szone * (action.map (closestPersonSpeed g p0 rest)).prod })) ∧
    (s.scaled = false →
      ∃ r phi, simpleBehaviorsCall g s w action = some (r, phi, s)) ∧
    (∃ (g' : Geometry) (w' : NavWorld) (s' : SimpleBehaviorsState)
       (act : List (List ℚ)) (r1 : ℚ) (phi1 : List ℚ)
       (s1 : SimpleBehaviorsState) (r2 : ℚ) (phi2 : List ℚ)
       (s2 : SimpleBehaviorsState),
      s'.scaled = true ∧
      simpleBehaviorsCall g' s' w' act = some (r1, phi1, s1) ∧
      simpleBehaviorsCall g' s1 w' act = some (r2, phi2, s2) ∧
      r1 ≠ r2) := by
  refine ⟨?_, ?_, ?_⟩
  · intro hsc
    have hsnd := social_szone_foldl g s p0 rest hsc action.enum 0 s.szone
    rw [enum_map_speed] at hsnd
    have hfs : featureSocialDisturbance g s w action =
        some ((action.enum.foldl (socialDisturbanceStep g s p0 rest)
            (0, s.szone)).1,
          s.szone * (action.map (closestPersonSpeed g p0 rest)).prod) := by
      unfold featureSocialDisturbance
      rw [hw]
      exact congrArg some (Prod.ext rfl hsnd)
    simp only [simpleBehaviorsCall, hfs]
    exact ⟨_, _, rfl⟩
  · intro hsc
    have hsnd := social_szone_foldl_unscaled g s p0 rest hsc action.enum 0
      s.szone
    have hfs : featureSocialDisturbance g s w action =
        some ((action.enum.foldl (socialDisturbanceStep g s p0 rest)
            (0, s.szone)).1, s.szone) := by
      unfold featureSocialDisturbance
      rw [hw]
      exact congrArg some (Prod.ext rfl hsnd)
    simp only [simpleBehaviorsCall, hfs]
    exact ⟨_, _, rfl⟩
  · refine ⟨unitGeometry, onePersonWorld, sociableState, [[1, 0]],
      -(13/5), [0, -(13/5), 0], { sociableState with szone := 3/5 },
      13/5, [0, 13/5, 0], { sociableState with szone := 6/5 },
      rfl, ?_, ?_, ?_⟩
    · norm_num [simpleBehaviorsCall, featureSocialDisturbance,
        featureRelationDisturbance, featureGoalDeviationSimple,
        socialDisturbanceStep, closestPersonScan, npDot, unitGeometry,
        onePersonWorld, sociableState, List.enum]
    · norm_num [simpleBehaviorsCall, featureSocialDisturbance,
        featureRelationDisturbance, featureGoalDeviationSimple,
        socialDisturbanceStep, closestPersonScan, npDot, unitGeometry,
        onePersonWorld, sociableState, List.enum]
    · norm_num

/-- C10 witness: the impurity characterization evaluated on the concrete
one-person world with the scaled sociable instance and the one-waypoint
action. -/
theorem simple_behaviors_call_impure_witness :
    (sociableState.scaled = true →
      ∃ r phi, simpleBehaviorsCall unitGeometry sociableState onePersonWorld
          [[1, 0]] =
        some (r, phi, { sociableState with szone := sociableState.szone *
          (([[1, 0]] : List (List ℚ)).map
            (closestPersonSpeed unitGeometry [0, 0, 0, 2] [])).prod })) ∧
    (sociableState.scaled = false →
      ∃ r phi, simpleBehaviorsCall unitGeometry sociableState onePersonWorld
          [[1, 0]] = some (r, phi, sociableState)) ∧
    (∃ (g' : Geometry) (w' : NavWorld) (s' : SimpleBehaviorsState)
       (act : List (List ℚ)) (r1 : ℚ) (phi1 : List ℚ)
       (s1 : SimpleBehaviorsState) (r2 : ℚ) (phi2 : List ℚ)
       (s2 : SimpleBehaviorsState),
      s'.scaled = true ∧
      simpleBehaviorsCall g' s' w' act = some (r1, phi1, s1) ∧
      simpleBehaviorsCall g' s1 w' act = some (r2, phi2, s2) ∧
      r1 ≠ r2) :=
  simple_behaviors_call_impure unitGeometry sociableState onePersonWorld
    [[1, 0]] [0, 0, 0, 2] [] rfl


end SIRL
